import Mathlib

set_option linter.all false

namespace Chef

/- Shallow embedding of the Chef-assistant mobile application (Expo/React
   Native client over a Supabase backend).  JS strings that are only compared
   for equality are embedded as `String`; strings whose character structure
   matters (splitting, joining, numeric parsing) are embedded as `List Char`.
   Database `numeric` quantities are embedded as `ℚ`. -/

-- ===================================================================
-- Cooking transaction (docs/databse.md section 5, spec section 4.1)
-- ===================================================================

/-- Row of the `ingredients` table (one user; RLS scopes rows to the user). -/
structure InventoryItem where
  id : Nat
  name : String
  quantity : ℚ
  unit : String
deriving DecidableEq

/-- Entry of the `ingredients` JSONB column of a recipe row. -/
structure RecipeIngredient where
  name : String
  quantity : ℚ
deriving DecidableEq

/-- Row of the `recipes` table (fields the cooking transaction touches). -/
structure Recipe where
  id : Nat
  ingredients : List RecipeIngredient
  is_used : Bool
deriving DecidableEq

/-- Database state visible to the cooking transaction: the calling user
    inventory and saved recipes. -/
structure CookState where
  inventory : List InventoryItem
  recipes : List Recipe
deriving DecidableEq

/-- Outcome categories of the cooking transaction (spec section 4.1). -/
inductive CookResult where
  | success
  | insufficientIngredient (name : String)
  | alreadyUsed
  | notFound
deriving DecidableEq

/-- Exact-name lookup in the inventory (case-sensitive, as stored). -/
def findByName (inv : List InventoryItem) (n : String) : Option InventoryItem :=
  inv.find? (fun i => i.name == n)

/-- A required ingredient is short when it is missing from the inventory or
    stocked below the required quantity. -/
def shortfall (inv : List InventoryItem) (req : RecipeIngredient) : Bool :=
  match findByName inv req.name with
  | none => true
  | some item => decide (item.quantity < req.quantity)

/-- First shortfall in the order the recipe lists its ingredients. -/
def firstShortfall (inv : List InventoryItem) : List RecipeIngredient → Option String
  | [] => none
  | req :: reqs => if shortfall inv req then some req.name else firstShortfall inv reqs

/-- Decrement the same-named inventory row by the required quantity. -/
def subtractOne (inv : List InventoryItem) (req : RecipeIngredient) : List InventoryItem :=
  inv.map (fun i =>
    if i.name = req.name then { i with quantity := i.quantity - req.quantity } else i)

/-- Decrement the inventory by every required ingredient of the recipe. -/
def subtractAll (inv : List InventoryItem) (reqs : List RecipeIngredient) : List InventoryItem :=
  reqs.foldl subtractOne inv

/-- Mark the recipe with the given id as used. -/
def setUsed (rs : List Recipe) (rid : Nat) : List Recipe :=
  rs.map (fun r => if r.id = rid then { r with is_used := true } else r)

/-- Modelled from the spec: the body of the `select_recipe_and_subtract_ingredients`
    database function is not part of this repository (only its client caller in
    the saved-recipe screen and its documented contract in docs/databse.md are).
    Per spec section 4.1 it atomically: resolves the recipe id (else NotFound),
    refuses an already used recipe (AlreadyUsed), reports the first required
    ingredient that is missing or under-stocked in recipe order
    (InsufficientIngredient), and otherwise subtracts every required quantity
    and sets `is_used`, all or nothing. -/
def cook (s : CookState) (rid : Nat) : CookState × CookResult :=
  match s.recipes.find? (fun r => r.id == rid) with
  | none => (s, CookResult.notFound)
  | some r =>
    if r.is_used then (s, CookResult.alreadyUsed)
    else
      match firstShortfall s.inventory r.ingredients with
      | some n => (s, CookResult.insufficientIngredient n)
      | none =>
        ({ inventory := subtractAll s.inventory r.ingredients,
           recipes := setUsed s.recipes rid }, CookResult.success)

/-- Pointwise effect of a successful cook on one inventory row: decremented if
    some required ingredient has its name, untouched otherwise. -/
def subtractedItem (reqs : List RecipeIngredient) (i : InventoryItem) : InventoryItem :=
  match reqs.find? (fun req => req.name == i.name) with
  | some req => { i with quantity := i.quantity - req.quantity }
  | none => i

/-- The requirement is met: a same-named inventory row exists with at least the
    required quantity. -/
def RequirementMet (inv : List InventoryItem) (req : RecipeIngredient) : Prop :=
  ∃ item ∈ inv, item.name = req.name ∧ req.quantity ≤ item.quantity

instance (inv : List InventoryItem) (req : RecipeIngredient) :
    Decidable (RequirementMet inv req) :=
  decidable_of_iff (∃ item ∈ inv, item.name = req.name ∧ req.quantity ≤ item.quantity) Iff.rfl

/-- Names of the inventory rows. -/
def invNames (inv : List InventoryItem) : List String := inv.map (fun i => i.name)

/-- Names of the required ingredients of a recipe. -/
def reqNames (reqs : List RecipeIngredient) : List String := reqs.map (fun r => r.name)

/-- Postcondition of a successful cook of recipe `r` (id `rid`) from state `s`:
    success is reported; the new inventory is the old one with exactly the
    required rows decremented; every sufficiently stocked required row appears
    decremented by its required amount; rows whose name no required ingredient
    bears are unaltered; the cooked recipe is marked used and all other recipe
    rows are unaltered. -/
def CookSuccessPost (s : CookState) (rid : Nat) (r : Recipe) : Prop :=
  (cook s rid).2 = CookResult.success ∧
  (cook s rid).1.inventory = s.inventory.map (subtractedItem r.ingredients) ∧
  (∀ i ∈ s.inventory, ∀ req ∈ r.ingredients, req.name = i.name →
    { i with quantity := i.quantity - req.quantity } ∈ (cook s rid).1.inventory) ∧
  (∀ i ∈ s.inventory, (∀ req ∈ r.ingredients, req.name ≠ i.name) →
    i ∈ (cook s rid).1.inventory) ∧
  (∀ r2 ∈ (cook s rid).1.recipes,
    (r2.id = rid → r2.is_used = true) ∧ (r2.id ≠ rid → r2 ∈ s.recipes))

/-- Postcondition of a cook rejected for insufficiency: the state is unchanged
    and the reported name is that of the first required ingredient, in the
    order the recipe lists them, whose requirement is not met. -/
def CookInsufficientPost (s : CookState) (rid : Nat) (r : Recipe) : Prop :=
  (cook s rid).1 = s ∧
  ∃ l1 req l2, r.ingredients = l1 ++ req :: l2 ∧
    (cook s rid).2 = CookResult.insufficientIngredient req.name ∧
    ¬ RequirementMet s.inventory req ∧
    (∀ req2 ∈ l1, RequirementMet s.inventory req2)

-- ===================================================================
-- Client classification of the cook response (saved-recipe screen)
-- ===================================================================

/-- Embeds the JS test `data.startsWith('Success')`. -/
def startsWithSuccess (s : String) : Bool :=
  match s.data with
  | 'S' :: 'u' :: 'c' :: 'c' :: 'e' :: 's' :: 's' :: _ => true
  | _ => false

/-- What the client shows the user after the cook RPC returns a string. -/
inductive ClientCookOutcome where
  | success
  | failure (message : String)
deriving DecidableEq

/-- Embeds the response handling of `handleCookRecipe` in the saved-recipe
    screen: `data && data.startsWith('Success')` selects the success alert,
    otherwise the error alert shows `data || 'Failed to cook recipe. ...'`
    (JS truthiness: the empty string falls back to the generic message). -/
def handleCookResponse (data : String) : ClientCookOutcome :=
  if data ≠ "" ∧ startsWithSuccess data = true then ClientCookOutcome.success
  else ClientCookOutcome.failure
    (if data = "" then "Failed to cook recipe. Please check your ingredients." else data)

/-- Modelled from the spec: the wire strings returned by the database function
    are produced outside this repository; docs/databse.md gives
    `Success: Ingredients have been subtracted.` and
    `Error: Insufficient ingredient - Flour` as the shapes, with every failure
    string starting with `Error`. -/
def renderCookResult : CookResult → String
  | CookResult.success => "Success: Ingredients have been subtracted."
  | CookResult.insufficientIngredient n => "Error: Insufficient ingredient - " ++ n
  | CookResult.alreadyUsed => "Error: Recipe has already been used."
  | CookResult.notFound => "Error: Recipe not found."

-- ===================================================================
-- Onboarding completion flag (profiles.onboarding_complete)
-- ===================================================================

/-- The user-triggered flows of the application that touch the backend.
    One constructor per handler in the sources. -/
inductive AppEvent where
  | savePreferencesOnboarding -- tastes screen handleComplete: upserts user_preferences only
  | savePreferencesCreate     -- create-recipe screen handleSavePreferences
  | saveRecipeOnboarding      -- onboarding recipes screen handleSaveRecipe
  | saveRecipeDetail          -- recipe-detail screen handleSaveRecipe
  | saveRecipeCreate          -- create-recipe screen handleSaveRecipe: insert only
  | saveIngredient            -- onboarding ingredients screen handleSaveIngredient
  | deleteIngredient
  | saveUtensil
  | deleteUtensil
  | deleteRecipe
  | cookRecipe
  | login
  | register
deriving DecidableEq

/-- Which handlers write `profiles.update({ onboarding_complete: true })`.
    Exactly two call sites exist in the sources: the onboarding recipes screen
    and the recipe-detail screen, both immediately after a successful recipe
    insert.  No handler anywhere writes the flag false. -/
def setsOnboardingFlag : AppEvent → Bool
  | AppEvent.saveRecipeOnboarding => true
  | AppEvent.saveRecipeDetail => true
  | _ => false

/-- Effect of one completed flow on the persisted onboarding flag. -/
def flagAfter (e : AppEvent) (b : Bool) : Bool :=
  if setsOnboardingFlag e then true else b

/-- Value of the persisted flag after a sequence of completed flows. -/
def runFlag (b : Bool) (t : List AppEvent) : Bool :=
  t.foldl (fun b2 e => flagAfter e b2) b

-- ===================================================================
-- Login routing (login screen) against the spec's onboarding gate
-- ===================================================================

/-- Destinations the login handler can route to (plus the remaining
    onboarding screens, for comparison with the spec). -/
inductive Screen where
  | dashboard
  | onboardingIngredients
  | onboardingUtensils
  | onboardingTastes
  | onboardingRecipes
deriving DecidableEq

/-- Embeds `handleLogin` of the login screen: after a successful sign-in the
    profile flag is read; true routes to /dashboard, false routes to
    /onboarding/ingredients.  No live counts are consulted. -/
def loginRoute (onboardingComplete : Bool) : Screen :=
  if onboardingComplete then Screen.dashboard else Screen.onboardingIngredients

/-- Live per-user data the spec says the gate recomputes from. -/
structure LiveCounts where
  ingredientCount : Nat
  utensilCount : Nat
  preferencesComplete : Bool
  hasSavedRecipe : Bool
deriving DecidableEq

/-- States of the onboarding gate (spec section 4.2). -/
inductive OnboardStep where
  | needsIngredients
  | needsUtensils
  | needsPreferences
  | needsFirstRecipe
  | complete
deriving DecidableEq

/-- Modelled from the spec: the onboarding state machine of section 4.2,
    recomputed from live counts (ingredients below 3, then utensils below 1,
    then incomplete preferences, then no saved recipe). -/
def onboardingStep (d : LiveCounts) : OnboardStep :=
  if d.ingredientCount < 3 then OnboardStep.needsIngredients
  else if d.utensilCount < 1 then OnboardStep.needsUtensils
  else if d.preferencesComplete = false then OnboardStep.needsPreferences
  else if d.hasSavedRecipe = false then OnboardStep.needsFirstRecipe
  else OnboardStep.complete

/-- Screen of each onboarding step. -/
def stepScreen : OnboardStep → Screen
  | OnboardStep.needsIngredients => Screen.onboardingIngredients
  | OnboardStep.needsUtensils => Screen.onboardingUtensils
  | OnboardStep.needsPreferences => Screen.onboardingTastes
  | OnboardStep.needsFirstRecipe => Screen.onboardingRecipes
  | OnboardStep.complete => Screen.dashboard

/-- Modelled from the spec: the login entry point of section 4.2 — read the
    persisted flag; if true route to the dashboard, if false recompute the
    state machine from live data and route to that step's screen. -/
def specLoginRoute (onboardingComplete : Bool) (d : LiveCounts) : Screen :=
  if onboardingComplete then Screen.dashboard else stepScreen (onboardingStep d)

-- ===================================================================
-- Ingredient writes (onboarding ingredients screen, docs/databse.md)
-- ===================================================================

/-- Row of the `ingredients` table as written by the client. -/
structure IngredientRow where
  id : Nat
  name : String
  quantity : ℚ
  unit : String
deriving DecidableEq

/-- Result of a row write: ok, or the distinguished duplicate-key violation
    (Postgres code 23505 on `unique_ingredient_for_user`). -/
inductive DbWriteResult where
  | ok
  | duplicateKey
deriving DecidableEq

/-- Embeds the create path of `handleSaveIngredient` (a plain `insert`)
    together with the `unique_ingredient_for_user` constraint on (user, name)
    documented in docs/databse.md: inserting an existing name is rejected with
    the duplicate-key error and the table is untouched. -/
def insertIngredient (tbl : List IngredientRow) (row : IngredientRow) :
    List IngredientRow × DbWriteResult :=
  if tbl.any (fun r => r.name == row.name) then (tbl, DbWriteResult.duplicateKey)
  else (tbl ++ [row], DbWriteResult.ok)

/-- Embeds the edit path of `handleSaveIngredient` (`update ... eq('id', ...)`)
    together with the uniqueness constraint: renaming a row to a name some
    other row already bears is rejected and the table is untouched. -/
def updateIngredientById (tbl : List IngredientRow) (tid : Nat) (row : IngredientRow) :
    List IngredientRow × DbWriteResult :=
  if tbl.any (fun r => decide (r.id ≠ tid) && (r.name == row.name)) then
    (tbl, DbWriteResult.duplicateKey)
  else
    (tbl.map (fun r =>
      if r.id = tid then { r with name := row.name, quantity := row.quantity, unit := row.unit }
      else r), DbWriteResult.ok)

/-- Embeds `addOrUpdateIngredient` of docs/databse.md: an `upsert` keyed on
    (user, name) updates the existing same-named row in place, otherwise
    inserts. -/
def upsertIngredient (tbl : List IngredientRow) (row : IngredientRow) : List IngredientRow :=
  if tbl.any (fun r => r.name == row.name) then
    tbl.map (fun r =>
      if r.name = row.name then { r with quantity := row.quantity, unit := row.unit } else r)
  else tbl ++ [row]

/-- Names of the rows of an ingredient table. -/
def rowNames (tbl : List IngredientRow) : List String := tbl.map (fun r => r.name)

/-- Ids of the rows of an ingredient table. -/
def rowIds (tbl : List IngredientRow) : List Nat := tbl.map (fun r => r.id)

/-- Second-write behaviour the amended claim C6 ascribes to the upsert: the
    row count is unchanged, every same-named row now carries the new quantity
    and unit, and every other row is carried over unaltered. -/
def UpsertUpdatesInPlace (tbl : List IngredientRow) (row : IngredientRow) : Prop :=
  (upsertIngredient tbl row).length = tbl.length ∧
  (∀ r ∈ tbl, r.name = row.name →
    { r with quantity := row.quantity, unit := row.unit } ∈ upsertIngredient tbl row) ∧
  (∀ r ∈ tbl, r.name ≠ row.name → r ∈ upsertIngredient tbl row) ∧
  insertIngredient tbl row = (tbl, DbWriteResult.duplicateKey)

-- ===================================================================
-- Failure notifications of the mutating flows
-- ===================================================================

/-- Every mutating backend operation a handler in the sources performs. -/
inductive MutatingOp where
  | createIngredient        -- handleSaveIngredient, create path
  | editIngredient          -- handleSaveIngredient, edit path
  | deleteIngredient        -- handleDeleteIngredient
  | createUtensil           -- handleSaveUtensil, create path
  | editUtensil             -- handleSaveUtensil, edit path
  | deleteUtensil           -- handleDeleteUtensil
  | saveRecipeOnboarding    -- onboarding recipes screen handleSaveRecipe
  | saveRecipeDetail        -- recipe-detail screen handleSaveRecipe
  | saveRecipeCreate        -- create-recipe screen handleSaveRecipe
  | deleteRecipe            -- dashboard handleDeleteRecipe
  | savePreferencesOnboarding -- tastes screen handleComplete
  | savePreferencesCreate   -- create-recipe screen handleSavePreferences
  | markOnboardingComplete  -- profiles.update after a recipe save
  | cookRecipe              -- handleCookRecipe
deriving DecidableEq

/-- The alert each handler shows when the operation fails, read off the error
    branch of each handler in the sources.  `none` means the failure is only
    logged to the console (the delete handlers) or the result is never
    inspected at all (the `profiles.update({onboarding_complete: true})`
    calls, whose error field is discarded). -/
def failureAlert : MutatingOp → Option String
  | MutatingOp.createIngredient => some "Failed to save ingredient"
  | MutatingOp.editIngredient => some "Failed to save ingredient"
  | MutatingOp.deleteIngredient => none
  | MutatingOp.createUtensil => some "Failed to save utensil"
  | MutatingOp.editUtensil => some "Failed to save utensil"
  | MutatingOp.deleteUtensil => none
  | MutatingOp.saveRecipeOnboarding => some "Failed to save recipe. Please try again."
  | MutatingOp.saveRecipeDetail => some "Failed to save recipe. Please try again."
  | MutatingOp.saveRecipeCreate => some "Failed to save recipe. Please try again."
  | MutatingOp.deleteRecipe => some "Failed to delete recipe. Please try again."
  | MutatingOp.savePreferencesOnboarding => some "Failed to save preferences"
  | MutatingOp.savePreferencesCreate => some "Failed to save preferences. Please try again."
  | MutatingOp.markOnboardingComplete => none
  | MutatingOp.cookRecipe => some "Failed to cook recipe. Please try again."

-- ===================================================================
-- Diet preference round trip (tastes screen)
-- ===================================================================

/-- Embeds JS `String.prototype.trim`. -/
def trimChars (s : List Char) : List Char :=
  ((s.dropWhile Char.isWhitespace).reverse.dropWhile Char.isWhitespace).reverse

/-- Embeds `toggleDiet`: a selected diet is removed, an unselected one is
    appended. -/
def toggleDiet (d : List Char) (l : List (List Char)) : List (List Char) :=
  if d ∈ l then l.filter (fun x => x ≠ d) else l ++ [d]

/-- Embeds `addCustomDiet`: the trimmed text is appended when nonempty and not
    already selected. -/
def addCustomDiet (txt : List Char) (l : List (List Char)) : List (List Char) :=
  if trimChars txt ≠ [] ∧ trimChars txt ∉ l then l ++ [trimChars txt] else l

/-- Embeds `removeCustomDiet`. -/
def removeCustomDiet (d : List Char) (l : List (List Char)) : List (List Char) :=
  l.filter (fun x => x ≠ d)

/-- The fixed DIET_OPTIONS of the tastes screen. -/
def dietOptionsList : List (List Char) :=
  ["Vegan".data, "Vegetarian".data, "Pescatarian".data, "Gluten-Free".data,
   "Dairy-Free".data, "Keto".data, "Paleo".data]

/-- Diet selections reachable through the tastes screen: start empty, toggle a
    fixed option, add a custom diet, or remove one. -/
inductive DietSel : List (List Char) → Prop where
  | start : DietSel []
  | toggle (d : List Char) (hd : d ∈ dietOptionsList) (l : List (List Char)) :
      DietSel l → DietSel (toggleDiet d l)
  | addCustom (d : List Char) (l : List (List Char)) :
      DietSel l → DietSel (addCustomDiet d l)
  | removeCustom (d : List Char) (l : List (List Char)) :
      DietSel l → DietSel (removeCustomDiet d l)

/-- Embeds `preferences.diets.join(',')` of `handleComplete`. -/
def joinDiets : List (List Char) → List Char
  | [] => []
  | [d] => d
  | d :: rest => d ++ ',' :: joinDiets rest

/-- Splitting worker: accumulates the current piece reversed. -/
def splitCommaAux (cur : List Char) : List Char → List (List Char)
  | [] => [cur.reverse]
  | c :: cs => if c = ',' then cur.reverse :: splitCommaAux [] cs else splitCommaAux (c :: cur) cs

/-- Embeds JS `s.split(',')`. -/
def splitComma (s : List Char) : List (List Char) :=
  splitCommaAux [] s

/-- Embeds `data.diet ? data.diet.split(',').filter(Boolean) : []` of
    `loadPreferences` (JS truthiness: the empty string yields the empty
    selection; `filter(Boolean)` drops empty pieces). -/
def loadDiets (s : List Char) : List (List Char) :=
  if s = [] then [] else (splitComma s).filter (fun p => p ≠ [])

-- ===================================================================
-- Saving a generated recipe (recipe screens)
-- ===================================================================

/-- Significand of the IEEE-754 double nearest 0.3 (value c03mant / 2 ^ 54). -/
def c03mant : Nat := 5404319552844595

/-- Significand of the IEEE-754 double nearest 0.7 (value c07mant / 2 ^ 52). -/
def c07mant : Nat := 3152519739159347

/-- Smallest d with M / 2 ^ d below 2 ^ 53, searched over d ≤ 63 (enough for
    every product this model takes: |t| below 2 ^ 64). -/
def dropFor (M : Nat) : Nat :=
  (((List.range 64).find? (fun d => decide (M < 2 ^ (53 + d)))).getD 0)

/-- Round a positive integer M (standing for M / 2 ^ shift) to 53 significand
    bits, nearest-even: returns (n, drop) standing for n * 2 ^ drop. -/
def roundMantissa (M : Nat) : Nat × Nat :=
  if M < 2 ^ 53 then (M, 0)
  else
    let drop := dropFor M
    let q := M / 2 ^ drop
    let r := M % 2 ^ drop
    let half := 2 ^ (drop - 1)
    if half < r ∨ (r = half ∧ q % 2 = 1) then (q + 1, drop) else (q, drop)

/-- Floor of the rounded product t * (mant / 2 ^ shift) for t ≥ 0. -/
def floorMulPos (t mant shift : Nat) : Nat :=
  ((roundMantissa (t * mant)).1 * 2 ^ (roundMantissa (t * mant)).2) / 2 ^ shift

/-- Ceiling of the rounded product t * (mant / 2 ^ shift) for t ≥ 0. -/
def ceilMulPos (t mant shift : Nat) : Nat :=
  ((roundMantissa (t * mant)).1 * 2 ^ (roundMantissa (t * mant)).2 + (2 ^ shift - 1)) / 2 ^ shift

/-- Embeds JS `Math.floor(t * c)` where c is the IEEE-754 double of value
    mant / 2 ^ shift: the double product rounds to nearest-even and the floor
    of a negative value is minus the ceiling of its magnitude. -/
def jsFloorMul (t : Int) (mant shift : Nat) : Int :=
  if 0 ≤ t then (floorMulPos t.toNat mant shift : Int)
  else -(ceilMulPos (-t).toNat mant shift : Int)

/-- Numeric value of a list of decimal digit characters. -/
def digitsToNat (l : List Char) : Nat :=
  l.foldl (fun a c => a * 10 + (c.toNat - 48)) 0

/-- Embeds JS `parseInt` on a decimal string: skip leading whitespace, accept
    an optional sign, then the maximal run of leading digits; NaN (here
    `none`) when no digit follows. -/
def parseIntJS (s : List Char) : Option Int :=
  let s1 := s.dropWhile Char.isWhitespace
  match s1 with
  | '-' :: rest =>
    if rest.takeWhile Char.isDigit = [] then none
    else some (-(digitsToNat (rest.takeWhile Char.isDigit) : Int))
  | '+' :: rest =>
    if rest.takeWhile Char.isDigit = [] then none
    else some ((digitsToNat (rest.takeWhile Char.isDigit) : Int))
  | _ =>
    if s1.takeWhile Char.isDigit = [] then none
    else some ((digitsToNat (s1.takeWhile Char.isDigit) : Int))

/-- Embeds `parseInt(recipe.time) || 30` of `handleSaveRecipe`: JS truthiness
    defaults both NaN and 0 to 30. -/
def timeDefault (s : List Char) : Int :=
  match parseIntJS s with
  | none => 30
  | some t => if t = 0 then 30 else t

/-- Fields of a generated recipe that the save handlers read. -/
structure GenRecipe where
  title : String
  time : List Char
  servings : Nat
deriving DecidableEq

/-- Row of the `recipes` table as inserted by the save handlers. -/
structure RecipeRow where
  title : String
  prep_time_minutes : Int
  cook_time_minutes : Int
  servings : Nat
  is_used : Bool
deriving DecidableEq

/-- Embeds `handleSaveRecipe` (identical in the three recipe screens):
    timeInMinutes = parseInt(recipe.time) || 30, prepTime =
    Math.floor(timeInMinutes * 0.3), cookTime = Math.floor(timeInMinutes *
    0.7) in double arithmetic, and the row is inserted with is_used: false. -/
def saveGeneratedRecipe (r : GenRecipe) : RecipeRow :=
  { title := r.title
    prep_time_minutes := jsFloorMul (timeDefault r.time) c03mant 54
    cook_time_minutes := jsFloorMul (timeDefault r.time) c07mant 52
    servings := r.servings
    is_used := false }

-- ===================================================================
-- Concrete inputs used by counterexamples and witnesses
-- ===================================================================

/-- Inventory with 500 g of Flour. -/
def invFlour : List InventoryItem := [{ id := 1, name := "Flour", quantity := 500, unit := "g" }]

/-- Saved, unused recipe 7 requiring 200 g of Flour. -/
def recipeFlour : Recipe :=
  { id := 7, ingredients := [{ name := "Flour", quantity := 200 }], is_used := false }

/-- State: 500 g of Flour in stock, recipe 7 saved and unused. -/
def stateFlour : CookState := { inventory := invFlour, recipes := [recipeFlour] }

/-- Saved, unused recipe 9 requiring 800 g of Flour (more than stocked). -/
def recipeBigFlour : Recipe :=
  { id := 9, ingredients := [{ name := "Flour", quantity := 800 }], is_used := false }

/-- State: 500 g of Flour in stock, recipe 9 saved and unused. -/
def stateBigFlour : CookState := { inventory := invFlour, recipes := [recipeBigFlour] }

/-- Recipe 7 already marked used. -/
def recipeFlourUsed : Recipe := { recipeFlour with is_used := true }

/-- State: recipe 7 already used. -/
def stateFlourUsed : CookState := { inventory := invFlour, recipes := [recipeFlourUsed] }

/-- Existing Flour row. -/
def flourRowA : IngredientRow := { id := 1, name := "Flour", quantity := 500, unit := "g" }

/-- Second write of Flour with a different quantity. -/
def flourRowB : IngredientRow := { id := 2, name := "Flour", quantity := 300, unit := "g" }

/-- Generated recipe whose time string parses to 90. -/
def genRecipe90 : GenRecipe := { title := "Roast", time := "90 minutes".data, servings := 4 }

/-- Generated recipe whose time string parses to 0. -/
def genRecipe0 : GenRecipe := { title := "Raw bites", time := "0 minutes".data, servings := 2 }

/-- Live counts of a user who finished the ingredient step but nothing else. -/
def countsAfterIngredients : LiveCounts :=
  { ingredientCount := 3, utensilCount := 0, preferencesComplete := false, hasSavedRecipe := false }

-- ===================================================================
-- Theorems
-- ===================================================================

theorem flagAfter_true (e : AppEvent) : flagAfter e true = true := by
  unfold flagAfter; split <;> rfl

theorem runFlag_cons (b : Bool) (e : AppEvent) (t : List AppEvent) :
    runFlag b (e :: t) = runFlag (flagAfter e b) t := rfl

/-- C4: the persisted onboarding Complete flag is a one-way latch, set true
    exactly by the recipe-save flows of onboarding and never by the
    preference-save flows: once true it survives every sequence of flows, the
    preference saves leave it untouched, the onboarding recipe save sets it,
    and whenever a flow sequence turns it from false to true, the moment it
    turns is a flag-setting recipe save. -/
theorem onboarding_flag_one_way_latch :
    (∀ t : List AppEvent, runFlag true t = true) ∧
    (∀ b : Bool, flagAfter AppEvent.savePreferencesOnboarding b = b ∧
      flagAfter AppEvent.savePreferencesCreate b = b) ∧
    (flagAfter AppEvent.saveRecipeOnboarding false = true) ∧
    (∀ t : List AppEvent, runFlag false t = true →
      ∃ t1 e t2, t = t1 ++ e :: t2 ∧ runFlag false t1 = false ∧
        setsOnboardingFlag e = true ∧ runFlag false (t1 ++ [e]) = true) := by
  refine ⟨?_, ?_, rfl, ?_⟩
  · intro t
    induction t with
    | nil => rfl
    | cons e t ih => rw [runFlag_cons, flagAfter_true]; exact ih
  · intro b; exact ⟨rfl, rfl⟩
  · intro t
    induction t with
    | nil => intro h; exact absurd h (by decide)
    | cons e t ih =>
      intro h
      by_cases hs : setsOnboardingFlag e = true
      · refine ⟨[], e, t, rfl, rfl, hs, ?_⟩
        simp [runFlag, flagAfter, hs]
      · have hfe : flagAfter e false = false := by
          unfold flagAfter
          rw [if_neg]
          intro hc; exact hs hc
        rw [runFlag_cons, hfe] at h
        obtain ⟨t1, e1, t2, heq, h1, h2, h3⟩ := ih h
        refine ⟨e :: t1, e1, t2, by rw [heq, List.cons_append], ?_, h2, ?_⟩
        · rw [runFlag_cons, hfe]; exact h1
        · rw [List.cons_append, runFlag_cons, hfe]; exact h3

/-- C4 witness: a concrete flow sequence that completes onboarding, run
    through the latch theorem. -/
theorem onboarding_flag_one_way_latch_witness :
    ∃ t1 e t2, [AppEvent.saveIngredient, AppEvent.saveRecipeOnboarding] = t1 ++ e :: t2 ∧
      runFlag false t1 = false ∧ setsOnboardingFlag e = true ∧
      runFlag false (t1 ++ [e]) = true :=
  onboarding_flag_one_way_latch.2.2.2
    [AppEvent.saveIngredient, AppEvent.saveRecipeOnboarding] (by decide)

/-- C5 counterexample: a user who already added three ingredients and logs in
    is routed to the ingredients screen, not to the utensils step the
    recomputed state machine prescribes. -/
theorem login_route_ignores_live_counts :
    loginRoute false = Screen.onboardingIngredients ∧
    specLoginRoute false countsAfterIngredients = Screen.onboardingUtensils ∧
    loginRoute false ≠ specLoginRoute false countsAfterIngredients := by decide

/-- C5 amended: on successful login the persisted flag alone decides the
    route — true goes to the dashboard, false always goes to the ingredients
    screen — so the code route agrees with the spec state machine exactly when
    the recomputed step is NeedsIngredients. -/
theorem login_route_amended (c : Bool) (d : LiveCounts) :
    loginRoute true = Screen.dashboard ∧
    loginRoute false = Screen.onboardingIngredients ∧
    (loginRoute c = specLoginRoute c d ↔
      (c = true ∨ onboardingStep d = OnboardStep.needsIngredients)) := by
  refine ⟨rfl, rfl, ?_⟩
  cases c with
  | true => simp [loginRoute, specLoginRoute]
  | false =>
    cases hstep : onboardingStep d <;>
      simp [loginRoute, specLoginRoute, hstep, stepScreen]

/-- C8 counterexample: the delete handlers only log failures to the console
    and the onboarding-flag update never inspects its result, so these failed
    mutations show the user nothing. -/
theorem delete_failure_shows_no_alert :
    (failureAlert MutatingOp.deleteIngredient).isSome = false ∧
    (failureAlert MutatingOp.deleteUtensil).isSome = false ∧
    (failureAlert MutatingOp.markOnboardingComplete).isSome = false := by decide

/-- C8 amended: every failed mutating flow produces a user-visible alert
    except the two delete handlers (console log only) and the
    onboarding-complete profile update (result discarded). -/
theorem failure_alert_coverage :
    ∀ op : MutatingOp, (failureAlert op).isSome = true ↔
      (op ≠ MutatingOp.deleteIngredient ∧ op ≠ MutatingOp.deleteUtensil ∧
        op ≠ MutatingOp.markOnboardingComplete) := by
  intro op; cases op <;> simp [failureAlert]

theorem startsWithSuccess_insufficient (n : String) :
    startsWithSuccess ("Error: Insufficient ingredient - " ++ n) = false := by
  unfold startsWithSuccess
  rw [String.data_append]
  rfl

theorem render_insufficient_ne_empty (n : String) :
    renderCookResult (CookResult.insufficientIngredient n) ≠ "" := by
  intro h
  have hd : (("Error: Insufficient ingredient - " ++ n) : String).data = ("" : String).data := by
    rw [show renderCookResult (CookResult.insufficientIngredient n) =
      "Error: Insufficient ingredient - " ++ n from rfl] at h
    rw [h]
  rw [String.data_append] at hd
  exact absurd hd (by intro hc; cases hc)

/-- C7: for every outcome of the cooking transaction, the client classifies
    the returned wire string by prefix — it reports success exactly when the
    string starts with Success — and on failure it presents the returned
    string itself as the reason. -/
theorem cook_response_prefix_contract (res : CookResult) :
    (handleCookResponse (renderCookResult res) = ClientCookOutcome.success ↔
      res = CookResult.success) ∧
    (startsWithSuccess (renderCookResult res) = true ↔ res = CookResult.success) ∧
    (res ≠ CookResult.success →
      handleCookResponse (renderCookResult res) =
        ClientCookOutcome.failure (renderCookResult res)) := by
  cases res with
  | success => exact ⟨by simp [handleCookResponse, renderCookResult, startsWithSuccess], by decide,
      fun h => absurd rfl h⟩
  | insufficientIngredient n =>
    have hsw := startsWithSuccess_insufficient n
    have hne := render_insufficient_ne_empty n
    have hfail : handleCookResponse (renderCookResult (CookResult.insufficientIngredient n)) =
        ClientCookOutcome.failure (renderCookResult (CookResult.insufficientIngredient n)) := by
      unfold handleCookResponse
      rw [if_neg, if_neg]
      · intro h; exact hne h
      · intro h
        rw [show renderCookResult (CookResult.insufficientIngredient n) =
          "Error: Insufficient ingredient - " ++ n from rfl, hsw] at h
        exact absurd h.2 (by decide)
    refine ⟨?_, ?_, fun _ => hfail⟩
    · rw [hfail]; simp
    · rw [show renderCookResult (CookResult.insufficientIngredient n) =
        "Error: Insufficient ingredient - " ++ n from rfl, hsw]
      simp
  | alreadyUsed => exact ⟨by decide, by decide, fun _ => by decide⟩
  | notFound => exact ⟨by decide, by decide, fun _ => by decide⟩

/-- C7 witness: the classification applied to the insufficient-Flour
    response. -/
theorem cook_response_prefix_contract_witness :
    handleCookResponse (renderCookResult (CookResult.insufficientIngredient "Flour")) =
      ClientCookOutcome.failure (renderCookResult (CookResult.insufficientIngredient "Flour")) :=
  (cook_response_prefix_contract (CookResult.insufficientIngredient "Flour")).2.2 (by decide)

theorem cook_eq_of_find_none (s : CookState) (rid : Nat)
    (hf : s.recipes.find? (fun r => r.id == rid) = none) :
    cook s rid = (s, CookResult.notFound) := by
  unfold cook; rw [hf]

theorem cook_eq_of_used (s : CookState) (rid : Nat) (r : Recipe)
    (hf : s.recipes.find? (fun x => x.id == rid) = some r) (hu : r.is_used = true) :
    cook s rid = (s, CookResult.alreadyUsed) := by
  unfold cook; rw [hf]; dsimp only; rw [if_pos hu]

theorem cook_eq_of_shortfall (s : CookState) (rid : Nat) (r : Recipe) (n : String)
    (hf : s.recipes.find? (fun x => x.id == rid) = some r) (hu : r.is_used = false)
    (hs : firstShortfall s.inventory r.ingredients = some n) :
    cook s rid = (s, CookResult.insufficientIngredient n) := by
  unfold cook; rw [hf]; dsimp only; rw [hu]
  rw [if_neg (by decide : ¬(false = true))]
  rw [hs]

theorem cook_eq_of_no_shortfall (s : CookState) (rid : Nat) (r : Recipe)
    (hf : s.recipes.find? (fun x => x.id == rid) = some r) (hu : r.is_used = false)
    (hs : firstShortfall s.inventory r.ingredients = none) :
    cook s rid = ({ inventory := subtractAll s.inventory r.ingredients,
                    recipes := setUsed s.recipes rid }, CookResult.success) := by
  unfold cook; rw [hf]; dsimp only; rw [hu]
  rw [if_neg (by decide : ¬(false = true))]
  rw [hs]

theorem find?_setUsed (rs : List Recipe) (rid : Nat) (r : Recipe)
    (h : rs.find? (fun x => x.id == rid) = some r) :
    (setUsed rs rid).find? (fun x => x.id == rid) = some { r with is_used := true } := by
  induction rs with
  | nil => simp [List.find?] at h
  | cons a t ih =>
    by_cases ha : a.id = rid
    · rw [List.find?_cons_of_pos _ (by simpa using ha)] at h
      obtain rfl : a = r := by simpa using h
      simp only [setUsed, List.map_cons, if_pos ha]
      exact List.find?_cons_of_pos _ (by simpa using ha)
    · rw [List.find?_cons_of_neg _ (by simpa using ha)] at h
      simp only [setUsed, List.map_cons, if_neg ha]
      rw [List.find?_cons_of_neg _ (by simpa using ha)]
      exact ih h

theorem cook_unchanged_of_ne_success (s : CookState) (rid : Nat)
    (h : (cook s rid).2 ≠ CookResult.success) : (cook s rid).1 = s := by
  cases hf : s.recipes.find? (fun r => r.id == rid) with
  | none => rw [cook_eq_of_find_none s rid hf]
  | some r =>
    cases hu : r.is_used with
    | true => rw [cook_eq_of_used s rid r hf hu]
    | false =>
      cases hfs : firstShortfall s.inventory r.ingredients with
      | none => rw [cook_eq_of_no_shortfall s rid r hf hu hfs] at h; exact absurd rfl h
      | some n => rw [cook_eq_of_shortfall s rid r n hf hu hfs]

/-- C3: cooking an already used recipe returns AlreadyUsed and leaves the
    whole state (every ingredient quantity included) unchanged; consequently a
    cook call is safe to retry, since re-invoking it after a success reports
    AlreadyUsed on the unchanged state instead of applying the subtraction
    again. -/
theorem cook_already_used_safe_retry :
    (∀ s rid r, s.recipes.find? (fun x => x.id == rid) = some r → r.is_used = true →
      cook s rid = (s, CookResult.alreadyUsed)) ∧
    (∀ s rid s2, cook s rid = (s2, CookResult.success) →
      cook s2 rid = (s2, CookResult.alreadyUsed)) := by
  constructor
  · intro s rid r hfind hused
    exact cook_eq_of_used s rid r hfind hused
  · intro s rid s2 h
    cases hf : s.recipes.find? (fun r => r.id == rid) with
    | none =>
      rw [cook_eq_of_find_none s rid hf] at h
      exact absurd (congrArg Prod.snd h) (by simp)
    | some r =>
      cases hu : r.is_used with
      | true =>
        rw [cook_eq_of_used s rid r hf hu] at h
        exact absurd (congrArg Prod.snd h) (by simp)
      | false =>
        cases hfs : firstShortfall s.inventory r.ingredients with
        | some n =>
          rw [cook_eq_of_shortfall s rid r n hf hu hfs] at h
          exact absurd (congrArg Prod.snd h) (by simp)
        | none =>
          rw [cook_eq_of_no_shortfall s rid r hf hu hfs] at h
          have hs2 : s2 = { inventory := subtractAll s.inventory r.ingredients,
                            recipes := setUsed s.recipes rid } := (congrArg Prod.fst h).symm
          have hfind2 : s2.recipes.find? (fun x => x.id == rid) =
              some { r with is_used := true } := by
            rw [hs2]; exact find?_setUsed s.recipes rid r hf
          exact cook_eq_of_used s2 rid { r with is_used := true } hfind2 rfl

theorem firstShortfall_eq_none_iff (inv : List InventoryItem) (reqs : List RecipeIngredient) :
    firstShortfall inv reqs = none ↔ ∀ req ∈ reqs, shortfall inv req = false := by
  induction reqs with
  | nil => simp [firstShortfall]
  | cons req reqs ih =>
    by_cases hs : shortfall inv req
    · simp only [firstShortfall, if_pos hs]
      constructor
      · intro habs; exact absurd habs (by simp)
      · intro hall
        exact absurd (hall req (List.mem_cons_self req reqs)) (by simp [hs])
    · simp only [firstShortfall, if_neg hs, ih, List.forall_mem_cons]
      constructor
      · intro h; exact ⟨by simpa using hs, h⟩
      · intro h; exact h.2

theorem firstShortfall_decomp (inv : List InventoryItem) (reqs : List RecipeIngredient)
    (h : ∃ req ∈ reqs, shortfall inv req = true) :
    ∃ l1 req l2, reqs = l1 ++ req :: l2 ∧ firstShortfall inv reqs = some req.name ∧
      shortfall inv req = true ∧ ∀ x ∈ l1, shortfall inv x = false := by
  induction reqs with
  | nil => simp at h
  | cons a t ih =>
    by_cases ha : shortfall inv a
    · exact ⟨[], a, t, rfl, by simp [firstShortfall, ha], ha, by simp⟩
    · have hat : ∃ req ∈ t, shortfall inv req = true := by
        obtain ⟨req, hm, hsf⟩ := h
        rcases List.mem_cons.mp hm with rfl | hmt
        · exact absurd hsf (by simpa using ha)
        · exact ⟨req, hmt, hsf⟩
      obtain ⟨l1, req, l2, heq, hfs, hsf, hall⟩ := ih hat
      refine ⟨a :: l1, req, l2, by rw [heq, List.cons_append], ?_, hsf, ?_⟩
      · simpa [firstShortfall, ha] using hfs
      · intro x hx
        rcases List.mem_cons.mp hx with rfl | hxl
        · simpa using ha
        · exact hall x hxl

theorem shortfall_eq_false_iff (inv : List InventoryItem) (req : RecipeIngredient)
    (h : (invNames inv).Nodup) :
    shortfall inv req = false ↔ RequirementMet inv req := by
  unfold shortfall findByName
  cases hf : inv.find? (fun i => i.name == req.name) with
  | none =>
    rw [List.find?_eq_none] at hf
    constructor
    · intro habs; exact absurd habs (by simp)
    · rintro ⟨item, hm, hn, -⟩
      exact absurd (by simpa using hn) (hf item hm)
  | some item =>
    have hmem : item ∈ inv := List.mem_of_find?_eq_some hf
    have hname : item.name = req.name := by simpa using List.find?_some hf
    constructor
    · intro hq
      exact ⟨item, hmem, hname, not_lt.mp (by simpa using hq)⟩
    · rintro ⟨item2, hm2, hn2, hle2⟩
      have : item2 = item :=
        List.inj_on_of_nodup_map (by simpa [invNames] using h) hm2 hmem
          (by rw [hn2, hname])
      subst this
      simpa [not_lt] using hle2

theorem find?_req_of_nodup (reqs : List RecipeIngredient) (req : RecipeIngredient)
    (h : (reqNames reqs).Nodup) (hm : req ∈ reqs) :
    reqs.find? (fun rq => rq.name == req.name) = some req := by
  induction reqs with
  | nil => simp at hm
  | cons a t ih =>
    have hnd : a.name ∉ t.map (fun r => r.name) ∧ (reqNames t).Nodup := by
      simpa [reqNames] using h
    rcases List.mem_cons.mp hm with rfl | hmt
    · exact List.find?_cons_of_pos _ (by simp)
    · have hne : a.name ≠ req.name := by
        intro hc
        exact hnd.1 (hc ▸ List.mem_map_of_mem (fun r => r.name) hmt)
      rw [List.find?_cons_of_neg _ (by simpa using hne)]
      exact ih hnd.2 hmt

theorem find?_req_none_of_not_mem (reqs : List RecipeIngredient) (n : String)
    (h : ∀ rq ∈ reqs, rq.name ≠ n) :
    reqs.find? (fun rq => rq.name == n) = none := by
  rw [List.find?_eq_none]
  intro rq hrq
  simpa using h rq hrq

theorem subtractAll_eq_map (reqs : List RecipeIngredient) (inv : List InventoryItem)
    (h : (reqNames reqs).Nodup) :
    subtractAll inv reqs = inv.map (subtractedItem reqs) := by
  induction reqs generalizing inv with
  | nil =>
    rw [show (subtractedItem [] : InventoryItem → InventoryItem) = fun i => i from
      funext fun i => rfl]
    simp [subtractAll]
  | cons req reqs ih =>
    have hnd : req.name ∉ reqs.map (fun r => r.name) ∧ (reqNames reqs).Nodup := by
      simpa [reqNames] using h
    have hstep : subtractAll inv (req :: reqs) = subtractAll (subtractOne inv req) reqs := rfl
    rw [hstep, ih (subtractOne inv req) hnd.2, subtractOne, List.map_map]
    apply List.map_congr_left
    intro i hi
    by_cases hn : i.name = req.name
    · have hfind : reqs.find? (fun rq => rq.name ==
          ({ i with quantity := i.quantity - req.quantity } : InventoryItem).name) = none := by
        apply find?_req_none_of_not_mem
        intro rq hrq hc
        exact hnd.1 (by
          rw [show ({ i with quantity := i.quantity - req.quantity } :
            InventoryItem).name = i.name from rfl, hn] at hc
          exact hc ▸ List.mem_map_of_mem (fun r => r.name) hrq)
      have hcons : (req :: reqs).find? (fun rq => rq.name == i.name) = some req :=
        List.find?_cons_of_pos _ (by simpa using hn.symm)
      simp only [Function.comp_apply, if_pos hn, subtractedItem, hfind, hcons]
    · have hcons : (req :: reqs).find? (fun rq => rq.name == i.name) =
          reqs.find? (fun rq => rq.name == i.name) :=
        List.find?_cons_of_neg _ (by simpa using fun hc => hn hc.symm)
      simp only [Function.comp_apply, if_neg hn, subtractedItem, hcons]

/-- C1: cooking a recipe every required ingredient of which is sufficiently
    stocked succeeds and, as one atomic unit, decrements exactly the
    same-named inventory rows by the required quantities, marks the recipe
    used, and alters nothing else; conversely any non-successful cook leaves
    the state untouched (all-or-nothing). -/
theorem cook_sufficient_success (s : CookState) (rid : Nat) (r : Recipe)
    (hfind : s.recipes.find? (fun x => x.id == rid) = some r)
    (hused : r.is_used = false)
    (hinv : (invNames s.inventory).Nodup)
    (hreq : (reqNames r.ingredients).Nodup)
    (hsuff : ∀ req ∈ r.ingredients, RequirementMet s.inventory req) :
    CookSuccessPost s rid r ∧
      (∀ s2 rid2, (cook s2 rid2).2 ≠ CookResult.success → (cook s2 rid2).1 = s2) := by
  have hshort : firstShortfall s.inventory r.ingredients = none :=
    (firstShortfall_eq_none_iff s.inventory r.ingredients).mpr
      (fun req hm => (shortfall_eq_false_iff s.inventory req hinv).mpr (hsuff req hm))
  have hcook := cook_eq_of_no_shortfall s rid r hfind hused hshort
  refine ⟨⟨by rw [hcook], ?_, ?_, ?_, ?_⟩, cook_unchanged_of_ne_success⟩
  · rw [hcook]
    exact subtractAll_eq_map r.ingredients s.inventory hreq
  · intro i hi req hrm hname
    rw [hcook]
    show { i with quantity := i.quantity - req.quantity } ∈ subtractAll s.inventory r.ingredients
    rw [subtractAll_eq_map r.ingredients s.inventory hreq]
    have hfi : r.ingredients.find? (fun rq => rq.name == i.name) = some req := by
      rw [← hname]
      exact find?_req_of_nodup r.ingredients req hreq hrm
    have : subtractedItem r.ingredients i =
        { i with quantity := i.quantity - req.quantity } := by
      unfold subtractedItem
      rw [hfi]
    exact this ▸ List.mem_map_of_mem (subtractedItem r.ingredients) hi
  · intro i hi hnone
    rw [hcook]
    show i ∈ subtractAll s.inventory r.ingredients
    rw [subtractAll_eq_map r.ingredients s.inventory hreq]
    have hfi : r.ingredients.find? (fun rq => rq.name == i.name) = none :=
      find?_req_none_of_not_mem r.ingredients i.name hnone
    have : subtractedItem r.ingredients i = i := by
      unfold subtractedItem
      rw [hfi]
    exact this ▸ List.mem_map_of_mem (subtractedItem r.ingredients) hi
  · intro r2 hr2
    rw [hcook] at hr2
    obtain ⟨r0, hr0, hmap⟩ := List.mem_map.mp hr2
    by_cases h0 : r0.id = rid
    · rw [if_pos h0] at hmap
      constructor
      · intro _; rw [← hmap]
      · intro hne
        exact absurd (by rw [← hmap]; exact h0) hne
    · rw [if_neg h0] at hmap
      constructor
      · intro hc; exact absurd (hmap ▸ hc) h0
      · intro _; rw [← hmap]; exact hr0

/-- C1 witness: cooking the Flour recipe from the 500 g state, run through the
    theorem. -/
theorem cook_sufficient_success_witness :
    CookSuccessPost stateFlour 7 recipeFlour ∧
      (∀ s2 rid2, (cook s2 rid2).2 ≠ CookResult.success → (cook s2 rid2).1 = s2) :=
  cook_sufficient_success stateFlour 7 recipeFlour (by decide) (by decide) (by decide)
    (by decide) (by decide)

/-- C2: cooking a recipe with an unmet requirement fails, leaves every
    ingredient quantity and the used flag unchanged, and names the first
    unmet requirement in the order the recipe lists its ingredients. -/
theorem cook_insufficient_reports_first (s : CookState) (rid : Nat) (r : Recipe)
    (hfind : s.recipes.find? (fun x => x.id == rid) = some r)
    (hused : r.is_used = false)
    (hinv : (invNames s.inventory).Nodup)
    (hex : ∃ req ∈ r.ingredients, ¬ RequirementMet s.inventory req) :
    CookInsufficientPost s rid r := by
  have hex2 : ∃ req ∈ r.ingredients, shortfall s.inventory req = true := by
    obtain ⟨req, hm, hnm⟩ := hex
    refine ⟨req, hm, ?_⟩
    rcases Bool.eq_false_or_eq_true (shortfall s.inventory req) with ht | hf
    · exact ht
    · exact absurd ((shortfall_eq_false_iff s.inventory req hinv).mp hf) hnm
  obtain ⟨l1, req, l2, heq, hfs, hsf, hall⟩ :=
    firstShortfall_decomp s.inventory r.ingredients hex2
  have hcook := cook_eq_of_shortfall s rid r req.name hfind hused hfs
  refine ⟨by rw [hcook], l1, req, l2, heq, by rw [hcook], ?_, ?_⟩
  · intro hmet
    have : shortfall s.inventory req = false :=
      (shortfall_eq_false_iff s.inventory req hinv).mpr hmet
    rw [this] at hsf
    exact absurd hsf (by decide)
  · intro req2 hm2
    exact (shortfall_eq_false_iff s.inventory req2 hinv).mp (hall req2 hm2)

/-- C2 witness: cooking the 800 g Flour recipe against 500 g of stock, run
    through the theorem. -/
theorem cook_insufficient_reports_first_witness :
    CookInsufficientPost stateBigFlour 9 recipeBigFlour :=
  cook_insufficient_reports_first stateBigFlour 9 recipeBigFlour (by decide) (by decide)
    (by decide) (by decide)

/-- C3 witness: the concrete used-recipe state, run through the theorem. -/
theorem cook_already_used_safe_retry_witness :
    cook stateFlourUsed 7 = (stateFlourUsed, CookResult.alreadyUsed) :=
  cook_already_used_safe_retry.1 stateFlourUsed 7 recipeFlourUsed (by decide) (by decide)

theorem any_name_eq_true_iff (tbl : List IngredientRow) (nm : String) :
    tbl.any (fun r => r.name == nm) = true ↔ nm ∈ rowNames tbl := by
  simp [List.any_eq_true, rowNames, List.mem_map, beq_iff_eq]

/-- C6 counterexample: with a 500 g Flour row present, a second write of
    Flour through the create path of handleSaveIngredient does not update the
    existing row — it is rejected with the duplicate-key error and the stored
    quantity stays 500, not 300. -/
theorem insert_duplicate_does_not_update :
    (insertIngredient [flourRowA] flourRowB).2 = DbWriteResult.duplicateKey ∧
    (insertIngredient [flourRowA] flourRowB).1 = [flourRowA] ∧
    ¬ ∃ r ∈ (insertIngredient [flourRowA] flourRowB).1,
        r.name = "Flour" ∧ r.quantity = 300 := by decide

theorem nodup_rename (tbl : List IngredientRow) (tid : Nat) (nm : String)
    (hids : (rowIds tbl).Nodup) (hnames : (rowNames tbl).Nodup)
    (hg : ∀ r ∈ tbl, r.id ≠ tid → r.name ≠ nm) :
    (tbl.map (fun r => if r.id = tid then nm else r.name)).Nodup := by
  induction tbl with
  | nil => simp
  | cons a t ih =>
    have hids2 : a.id ∉ rowIds t ∧ (rowIds t).Nodup := by simpa [rowIds] using hids
    have hnames2 : a.name ∉ rowNames t ∧ (rowNames t).Nodup := by simpa [rowNames] using hnames
    have hgt : ∀ r ∈ t, r.id ≠ tid → r.name ≠ nm :=
      fun r hr => hg r (List.mem_cons_of_mem a hr)
    simp only [List.map_cons, List.nodup_cons]
    constructor
    · by_cases ha : a.id = tid
      · rw [if_pos ha]
        intro hc
        obtain ⟨r, hrt, hre⟩ := List.mem_map.mp hc
        by_cases hrid : r.id = tid
        · exact hids2.1 (by
            have : a.id ∈ t.map (fun x => x.id) :=
              List.mem_map.mpr ⟨r, hrt, by rw [hrid, ha]⟩
            simpa [rowIds] using this)
        · rw [if_neg hrid] at hre
          exact hgt r hrt hrid hre
      · rw [if_neg ha]
        intro hc
        obtain ⟨r, hrt, hre⟩ := List.mem_map.mp hc
        by_cases hrid : r.id = tid
        · rw [if_pos hrid] at hre
          exact hg a (List.mem_cons_self a t) ha hre.symm
        · rw [if_neg hrid] at hre
          exact hnames2.1 (by
            have : a.name ∈ t.map (fun x => x.name) := List.mem_map.mpr ⟨r, hrt, hre⟩
            simpa [rowNames] using this)
    · exact ih hids2.2 hnames2.2 hgt

/-- C6 amended: a second ingredient write with an existing (user, name) either
    updates the row in place without growing the table (the documented upsert)
    or is rejected with the distinguished duplicate-key error leaving the
    table untouched (the create path); the update-by-id path never changes the
    row count and rejects renames onto an existing name; and all three writes
    preserve the per-user name-uniqueness invariant, so no reachable table
    holds two rows with the same name. -/
theorem ingredient_write_uniqueness :
    (∀ tbl row, row.name ∈ rowNames tbl → UpsertUpdatesInPlace tbl row) ∧
    (∀ tbl tid row, ((updateIngredientById tbl tid row).1).length = tbl.length) ∧
    (∀ tbl row, (rowNames tbl).Nodup → (rowNames (insertIngredient tbl row).1).Nodup) ∧
    (∀ tbl row, (rowNames tbl).Nodup → (rowNames (upsertIngredient tbl row)).Nodup) ∧
    (∀ tbl tid row, (rowIds tbl).Nodup → (rowNames tbl).Nodup →
      (rowNames (updateIngredientById tbl tid row).1).Nodup) := by
  refine ⟨?_, ?_, ?_, ?_, ?_⟩
  · intro tbl row hmem
    have hany : tbl.any (fun r => r.name == row.name) = true :=
      (any_name_eq_true_iff tbl row.name).mpr hmem
    refine ⟨?_, ?_, ?_, ?_⟩
    · rw [upsertIngredient, if_pos hany, List.length_map]
    · intro r hr hname
      rw [upsertIngredient, if_pos hany]
      have : (if r.name = row.name then
          { r with quantity := row.quantity, unit := row.unit } else r) =
          { r with quantity := row.quantity, unit := row.unit } := if_pos hname
      exact this ▸ List.mem_map_of_mem _ hr
    · intro r hr hname
      rw [upsertIngredient, if_pos hany]
      have : (if r.name = row.name then
          { r with quantity := row.quantity, unit := row.unit } else r) = r := if_neg hname
      exact this ▸ List.mem_map_of_mem _ hr
    · rw [insertIngredient, if_pos hany]
  · intro tbl tid row
    rw [updateIngredientById]
    split
    · rfl
    · exact List.length_map tbl _
  · intro tbl row hnd
    rw [insertIngredient]
    by_cases hany : tbl.any (fun r => r.name == row.name) = true
    · rw [if_pos hany]; exact hnd
    · rw [if_neg hany]
      have hnot : row.name ∉ rowNames tbl :=
        fun hc => hany ((any_name_eq_true_iff tbl row.name).mpr hc)
      simp only [rowNames, List.map_append, List.map_cons, List.map_nil]
      simp [List.nodup_append, hnot]
      constructor
      · simpa [rowNames] using hnd
      · intro r hr hc
        exact hnot (by simpa [rowNames] using ⟨r, hr, hc⟩)
  · intro tbl row hnd
    rw [upsertIngredient]
    by_cases hany : tbl.any (fun r => r.name == row.name) = true
    · rw [if_pos hany]
      have heq : rowNames (tbl.map (fun r =>
          if r.name = row.name then { r with quantity := row.quantity, unit := row.unit }
          else r)) = rowNames tbl := by
        simp only [rowNames, List.map_map]
        apply List.map_congr_left
        intro r _
        dsimp only [Function.comp_apply]
        split <;> rfl
      rw [heq]; exact hnd
    · rw [if_neg hany]
      have hnot : row.name ∉ rowNames tbl :=
        fun hc => hany ((any_name_eq_true_iff tbl row.name).mpr hc)
      simp only [rowNames, List.map_append, List.map_cons, List.map_nil]
      simp [List.nodup_append, hnot]
      constructor
      · simpa [rowNames] using hnd
      · intro r hr hc
        exact hnot (by simpa [rowNames] using ⟨r, hr, hc⟩)
  · intro tbl tid row hids hnames
    rw [updateIngredientById]
    by_cases hguard : tbl.any (fun r => decide (r.id ≠ tid) && (r.name == row.name)) = true
    · rw [if_pos hguard]; exact hnames
    · rw [if_neg hguard]
      have hg : ∀ r ∈ tbl, r.id ≠ tid → r.name ≠ row.name := by
        intro r hr hrid hc
        apply hguard
        simp only [List.any_eq_true]
        exact ⟨r, hr, by simp [hrid, hc]⟩
      have heq : rowNames (tbl.map (fun r =>
          if r.id = tid then { r with name := row.name, quantity := row.quantity,
                                      unit := row.unit } else r)) =
          tbl.map (fun r => if r.id = tid then row.name else r.name) := by
        simp only [rowNames, List.map_map]
        apply List.map_congr_left
        intro r _
        dsimp only [Function.comp_apply]
        split <;> rfl
      rw [heq]
      exact nodup_rename tbl tid row.name hids hnames hg

/-- C6 witness: the documented upsert of a second Flour write, run through the
    theorem. -/
theorem ingredient_write_uniqueness_witness :
    UpsertUpdatesInPlace [flourRowA] flourRowB :=
  ingredient_write_uniqueness.1 [flourRowA] flourRowB (by decide)

theorem dietOptions_ne_nil : ∀ d ∈ dietOptionsList, d ≠ [] := by decide

theorem dietSel_ne_nil {l : List (List Char)} (h : DietSel l) : ∀ d ∈ l, d ≠ [] := by
  induction h with
  | start => simp
  | toggle d hd l hsel ih =>
    rw [toggleDiet]
    split
    · intro x hx
      exact ih x (List.mem_of_mem_filter hx)
    · intro x hx
      rcases List.mem_append.mp hx with hxl | hxd
      · exact ih x hxl
      · rw [List.mem_singleton.mp hxd]
        exact dietOptions_ne_nil d hd
  | addCustom d l hsel ih =>
    rw [addCustomDiet]
    split
    · rename_i hcond
      intro x hx
      rcases List.mem_append.mp hx with hxl | hxd
      · exact ih x hxl
      · rw [List.mem_singleton.mp hxd]
        exact hcond.1
    · exact ih
  | removeCustom d l hsel ih =>
    intro x hx
    exact ih x (List.mem_of_mem_filter hx)

theorem splitCommaAux_no_comma :
    ∀ (s : List Char), ',' ∉ s → ∀ cur, splitCommaAux cur s = [cur.reverse ++ s] := by
  intro s
  induction s with
  | nil => intro _ cur; simp [splitCommaAux]
  | cons c cs ih =>
    intro h cur
    have hc : ¬(c = ',') := fun hcc => h (by rw [hcc]; exact List.mem_cons_self ',' cs)
    have hcs : ',' ∉ cs := fun hm => h (List.mem_cons_of_mem c hm)
    simp only [splitCommaAux, if_neg hc]
    rw [ih hcs (c :: cur)]
    simp

theorem splitCommaAux_append :
    ∀ (s : List Char), ',' ∉ s → ∀ cur t,
      splitCommaAux cur (s ++ ',' :: t) = (cur.reverse ++ s) :: splitCommaAux [] t := by
  intro s
  induction s with
  | nil =>
    intro _ cur t
    simp [splitCommaAux]
  | cons c cs ih =>
    intro h cur t
    have hc : ¬(c = ',') := fun hcc => h (by rw [hcc]; exact List.mem_cons_self ',' cs)
    have hcs : ',' ∉ cs := fun hm => h (List.mem_cons_of_mem c hm)
    simp only [List.cons_append, splitCommaAux, if_neg hc, List.append_eq]
    rw [ih hcs (c :: cur) t]
    simp

theorem joinDiets_cons_ne_nil (e : List Char) (r : List (List Char)) (he : e ≠ []) :
    joinDiets (e :: r) ≠ [] := by
  cases r with
  | nil => exact he
  | cons f r2 =>
    show e ++ ',' :: joinDiets (f :: r2) ≠ []
    cases e <;> simp

theorem joinDiets_roundtrip :
    ∀ (l : List (List Char)), (∀ d ∈ l, d ≠ [] ∧ ',' ∉ d) →
      loadDiets (joinDiets l) = l := by
  intro l
  induction l with
  | nil => intro _; simp [joinDiets, loadDiets]
  | cons d rest ih =>
    intro h
    have hd := h d (List.mem_cons_self d rest)
    cases rest with
    | nil =>
      simp only [joinDiets, loadDiets, if_neg hd.1]
      rw [splitComma, splitCommaAux_no_comma d hd.2 []]
      simp [List.filter_cons, hd.1]
    | cons e rest2 =>
      have hrest : ∀ x ∈ e :: rest2, x ≠ [] ∧ ',' ∉ x :=
        fun x hx => h x (List.mem_cons_of_mem d hx)
      have he := hrest e (List.mem_cons_self e rest2)
      have hjoin : joinDiets (d :: e :: rest2) = d ++ ',' :: joinDiets (e :: rest2) := rfl
      have hne : d ++ ',' :: joinDiets (e :: rest2) ≠ [] := by cases d <;> simp
      have hihload := ih hrest
      rw [loadDiets, if_neg (joinDiets_cons_ne_nil e rest2 he.1), splitComma] at hihload
      rw [hjoin, loadDiets, if_neg hne, splitComma,
        splitCommaAux_append d hd.2 [] (joinDiets (e :: rest2))]
      simp only [List.reverse_nil, List.nil_append, List.filter_cons]
      rw [if_pos (by simpa using hd.1)]
      rw [hihload]

/-- C9: the multi-value diet preference round-trips through storage — saving
    joins the selected diets with commas, loading splits on commas and drops
    empty pieces — so every selection reachable in the tastes screen whose
    names hold no comma loads back exactly; and some reachable selection with
    a comma in a name does not. -/
theorem diet_round_trip :
    (∀ l, DietSel l → (∀ d ∈ l, ',' ∉ d) → loadDiets (joinDiets l) = l) ∧
    (∃ l, DietSel l ∧ loadDiets (joinDiets l) ≠ l) := by
  constructor
  · intro l hsel hnc
    exact joinDiets_roundtrip l (fun d hd => ⟨dietSel_ne_nil hsel d hd, hnc d hd⟩)
  · refine ⟨addCustomDiet ['a', ',', 'b'] [],
      DietSel.addCustom ['a', ',', 'b'] [] DietSel.start, ?_⟩
    decide

/-- C9 witness: the selection holding just the Vegan option, run through the
    theorem. -/
theorem diet_round_trip_witness :
    loadDiets (joinDiets (toggleDiet "Vegan".data [])) = toggleDiet "Vegan".data [] :=
  diet_round_trip.1 (toggleDiet "Vegan".data [])
    (DietSel.toggle "Vegan".data (by decide) [] DietSel.start) (by decide)

/-- C10 counterexample: a generated recipe announcing 90 minutes is saved with
    cook_time_minutes 62, not floor(0.7 * 90) = 63 (the double product
    90 * 0.7 falls just below 63), and a recipe announcing 0 minutes is saved
    with prep_time_minutes 9, not floor(0.3 * 0) = 0 (JS `parseInt(t) || 30`
    treats a parsed 0 as unparsed and uses the default 30). -/
theorem save_time_float_mismatch :
    (saveGeneratedRecipe genRecipe90).cook_time_minutes = 62 ∧
    ((7 : Int) * 90) / 10 = 63 ∧
    (saveGeneratedRecipe genRecipe90).cook_time_minutes ≠ (7 * 90) / 10 ∧
    (saveGeneratedRecipe genRecipe0).prep_time_minutes = 9 ∧
    (saveGeneratedRecipe genRecipe0).prep_time_minutes ≠ ((3 : Int) * 0) / 10 := by decide

/-- C10 amended: a saved recipe row always carries is_used false and derives
    its prep and cook minutes as Math.floor(t * 0.3) and Math.floor(t * 0.7)
    in IEEE-754 double arithmetic, where t is the leading integer of the time
    string, defaulting to 30 when the string does not parse or parses to 0;
    the double results agree with the exact floor(3t/10) and floor(7t/10) for
    every t below 90, while at t = 90 the cook time is 62 instead of 63. -/
theorem save_recipe_times_amended :
    (∀ r : GenRecipe, (saveGeneratedRecipe r).is_used = false ∧
      (saveGeneratedRecipe r).prep_time_minutes = jsFloorMul (timeDefault r.time) c03mant 54 ∧
      (saveGeneratedRecipe r).cook_time_minutes = jsFloorMul (timeDefault r.time) c07mant 52) ∧
    (timeDefault "0 minutes".data = 30 ∧ timeDefault "abc".data = 30 ∧
      timeDefault "45 minutes".data = 45 ∧ timeDefault "1 hour".data = 1) ∧
    (∀ t : Nat, t < 90 →
      jsFloorMul (t : Int) c03mant 54 = ((3 * t) / 10 : Nat) ∧
      jsFloorMul (t : Int) c07mant 52 = ((7 * t) / 10 : Nat)) ∧
    (jsFloorMul 90 c03mant 54 = 27 ∧ jsFloorMul 90 c07mant 52 = 62 ∧
      ((7 * 90) / 10 : Nat) = 63) := by
  refine ⟨fun r => ⟨rfl, rfl, rfl⟩, by decide, ?_, by decide⟩
  decide

/-- C10 witness: the agreement with exact arithmetic at t = 45, run through
    the theorem. -/
theorem save_recipe_times_amended_witness :
    jsFloorMul ((45 : Nat) : Int) c03mant 54 = ((3 * 45) / 10 : Nat) ∧
    jsFloorMul ((45 : Nat) : Int) c07mant 52 = ((7 * 45) / 10 : Nat) :=
  save_recipe_times_amended.2.2.1 45 (by decide)

end Chef
